import Mathlib

/-!
# gwyf: a proxy from a (line, direction, station) query to the RATP schedule page

Shallow embedding of `gwyf.go` and proofs about the per-request pipeline:
query validation, upstream URL composition, pattern-based extraction,
JSON encoding and error mapping.

Conventions of the embedding.

* A Go string is modelled by a Lean `String` (a sequence of Unicode code
  points, i.e. valid UTF-8 text).
* A Go slice is `Slice α`: either `nil` or a non-nil slice with given elements.
* A Go function returning `(T, error)` is modelled by `Outcome T`, which also
  records a run-time fault (an index out of range).
* The request is modelled by its parsed query (`request.URL.Query()`), the
  upstream service and the clock by a `Backend`, the response by the state of
  its `ResponseWriter`.

Left out: the log line written by `errorHandler`, the layout of the JSON text
(the document is kept as a tree, with the pretty-print flag), and the printing
of the `float64` duration.
-/

namespace Gwyf

/-! ## Go values -/

/-- A Go slice value: the nil slice, or a non-nil slice holding `xs`. -/
inductive Slice (α : Type) where
  | nil : Slice α
  | elems (xs : List α) : Slice α
  deriving DecidableEq, Repr

/-- Result of a Go call of type `(T, error)`: a value with a nil error, a
non-nil error carrying its message, a run-time fault (index out of range), or
`unfinished` when a bounded loop of the embedding used up its iteration bound. -/
inductive Outcome (α : Type) where
  | ok (a : α) : Outcome α
  | error (msg : String) : Outcome α
  | fault : Outcome α
  | unfinished : Outcome α
  deriving DecidableEq, Repr

/-- Sequencing of Go calls: the first error or fault aborts. -/
def Outcome.bind {α β : Type} (x : Outcome α) (f : α → Outcome β) : Outcome β :=
  match x with
  | .ok a => f a
  | .error m => .error m
  | .fault => .fault
  | .unfinished => .unfinished

/-- Go index expression `s[i]` on a slice. -/
def Slice.index {α : Type} (s : Slice α) (i : Nat) : Outcome α :=
  match s with
  | .nil => .fault
  | .elems xs =>
    match xs.get? i with
    | some x => .ok x
    | none => .fault

/-- A Go `map[string][]string` (the type of `url.Values`), as an association
list; the first binding of a key is the one the map holds. -/
abbrev Values := List (String × Slice String)

/-- Go index expression `q[k]` on a map: the bound value, or the zero value
(the nil slice) when the key is absent. -/
def Values.get (q : Values) (k : String) : Slice String :=
  match q.lookup k with
  | some v => v
  | none => .nil

/-- The key `k` is bound in `q`. -/
def Values.has (q : Values) (k : String) : Bool :=
  (q.lookup k).isSome

/-- Maps as produced by parsing a URL query string (`request.URL.Query()`):
every bound key holds one or more values. -/
def Values.parsed (q : Values) : Bool :=
  q.all fun kv =>
    match kv.2 with
    | .elems (_ :: _) => true
    | _ => false

/-! ## ScheduleQuery builder -/

/-- The Go struct `schedQuery`. -/
structure schedQuery where
  Mode : String
  Line : String
  Direction : String
  Station : String
  deriving DecidableEq, Repr

/-- The array `mandatoryParameters` of `buildSchedQuery`. -/
def mandatoryParameters : List String := ["line", "direction", "station"]

/-- The `for _, p := range mandatoryParameters` loop of `buildSchedQuery`:
the error of the first parameter `p` with `q[p] == nil`, if any. -/
def checkMandatory (q : Values) : List String → Option String
  | [] => none
  | p :: ps =>
    if q.get p = .nil then some ("Missing mandatory parameter '" ++ p ++ "'")
    else checkMandatory q ps

/-- The Go function `buildSchedQuery`. -/
def buildSchedQuery (q : Values) : Outcome schedQuery :=
  match checkMandatory q mandatoryParameters with
  | some msg => .error msg
  | none =>
    ((q.get "line").index 0).bind fun line =>
    ((q.get "direction").index 0).bind fun direction =>
    ((q.get "station").index 0).bind fun station =>
    .ok { Mode := "rer", Line := line, Direction := direction, Station := station }

/-! ## Upstream URL composer -/

/-- The Go constant `wapUrl` (the trailing double quote is part of the raw
string literal in the source). -/
def wapUrl : String :=
  "http://wap.ratp.fr/siv/schedule?service=next" ++
    "&reseau={{.Mode}}&lineid={{.Line}}&directionsens={{.Direction}}&stationname={{.Station}}\""

/-- Node of a parsed `text/template`: literal text, or the action `{{.Name}}`
that prints the field `Name` of the data. -/
inductive Node where
  | text (s : String) : Node
  | field (name : String) : Node
  deriving DecidableEq, Repr

/-- Parser of the `text/template` fragment used by `wapUrl`: text interleaved
with `{{.Name}}` actions. `inAction` tells whether the scan is inside `{{ }}`,
`acc` holds the characters of the current piece in reverse. Any other action
and an unclosed action are parse errors. -/
def parseTemplate : List Char → Bool → List Char → Option (List Node)
  | [], false, acc => some [Node.text (String.mk acc.reverse)]
  | [], true, _ => none
  | '{' :: '{' :: rest, false, acc =>
    (parseTemplate rest true []).map fun ns => Node.text (String.mk acc.reverse) :: ns
  | '}' :: '}' :: rest, true, acc =>
    match acc.reverse with
    | '.' :: name => (parseTemplate rest false []).map fun ns => Node.field (String.mk name) :: ns
    | _ => none
  | c :: rest, b, acc => parseTemplate rest b (c :: acc)

/-- The Go variable `delegateUrlTemplate`: `wapUrl` parsed once at start-up
(`none` would be the start-up failure of `template.Must`). -/
def delegateUrlTemplate : Option (List Node) :=
  parseTemplate wapUrl.data false []

/-- Field lookup of template execution on a `schedQuery`. -/
def schedQuery.field (sq : schedQuery) (name : String) : Option String :=
  if name = "Mode" then some sq.Mode
  else if name = "Line" then some sq.Line
  else if name = "Direction" then some sq.Direction
  else if name = "Station" then some sq.Station
  else none

/-- Execution of a parsed template into a buffer `buf`: text is copied,
a field action appends the field's value unescaped (`text/template`), and an
unknown field is an execution error. -/
def executeNodes (sq : schedQuery) : List Node → String → Outcome String
  | [], buf => .ok buf
  | .text s :: ns, buf => executeNodes sq ns (buf ++ s)
  | .field name :: ns, buf =>
    match sq.field name with
    | some v => executeNodes sq ns (buf ++ v)
    | none => .error ("template: schedUrl: can't evaluate field " ++ name)

/-- The call `delegateUrlTemplate.Execute(schedUrl, schedParameters)` on a fresh
buffer, returning the buffer's content. -/
def executeTemplate (sq : schedQuery) : Outcome String :=
  match delegateUrlTemplate with
  | some ns => executeNodes sq ns ""
  | none => .fault

/-- The Go function `buildDelegateURL`, on the parsed query of the request. -/
def buildDelegateURL (q : Values) : Outcome String :=
  (buildSchedQuery q).bind fun schedParameters =>
  executeTemplate schedParameters

/-! ## Result extractor: the pattern and its matching

`regexp.MustCompile` and `FindAllStringSubmatch` belong to the Go library. They
are modelled for the fragment of the RE2 syntax that `schedResultPattern` uses:
literal characters, `.`, `\w`, bracket classes of plain characters, the greedy
operators `*` and `+` on a single-character item, and capture groups. The
matcher is a backtracking one, whose result is the leftmost-first match that
the package `regexp` documents. Positions count characters. -/

/-- The Go constant `schedResultPattern`. -/
def schedResultPattern : String :=
  "&gt;&nbsp;([^<]+)</div>.*>(\\w+)</a>.*<div class=\"schmsg.\"><b>([^<]+)</b>"

/-- A single-character item of a pattern. -/
inductive Cls where
  | char (c : Char) : Cls
  | anyNotNL : Cls
  | word : Cls
  | notIn (cs : List Char) : Cls
  | oneOf (cs : List Char) : Cls
  deriving DecidableEq, Repr

/-- The Perl class `\w`: an ASCII letter, digit or underscore. -/
def isWordChar (x : Char) : Bool :=
  ('0' ≤ x && x ≤ '9') || ('A' ≤ x && x ≤ 'Z') || x == '_' || ('a' ≤ x && x ≤ 'z')

/-- Whether the character `x` is matched by the item. `.` does not match a
newline (flag `s` is off); a negated bracket class does. -/
def Cls.test : Cls → Char → Bool
  | .char c, x => x == c
  | .anyNotNL, x => x != '\n'
  | .word, x => isWordChar x
  | .notIn cs, x => !cs.contains x
  | .oneOf cs, x => cs.contains x

/-- Instruction of a compiled pattern: match one character, match a greedy
repetition (`*`: zero or more, `+`: one or more) of a single-character item, or
record the current position in a capture slot. -/
inductive Inst where
  | one (c : Cls) : Inst
  | star (c : Cls) : Inst
  | plus (c : Cls) : Inst
  | save (slot : Nat) : Inst
  deriving DecidableEq, Repr

/-- Where the pattern compiler stands: at top level, after a backslash, or
inside a bracket class (`neg`: negated, `first`: no member read yet, `cs`: the
members read, in reverse). -/
inductive CMode where
  | top : CMode
  | esc : CMode
  | cls (neg first : Bool) (cs : List Char) : CMode
  deriving DecidableEq, Repr

/-- State of the pattern compiler: the instructions emitted (in reverse), the
number of groups opened, the stack of groups still open, and the mode. -/
structure CState where
  prog : List Inst
  ngroup : Nat
  opened : List Nat
  mode : CMode
  deriving DecidableEq, Repr

/-- One character of the pattern. `none` is a syntax error or a construct outside
the modelled fragment. -/
def compileStep (st : CState) (c : Char) : Option CState :=
  match st.mode with
  | .esc =>
    if c = 'w' then some { st with prog := .one .word :: st.prog, mode := .top } else none
  | .cls neg first cs =>
    if c = '^' ∧ first = true ∧ neg = false then some { st with mode := .cls true true [] }
    else if c = ']' ∧ first = false then
      some { st with
        prog := .one (if neg then .notIn cs.reverse else .oneOf cs.reverse) :: st.prog,
        mode := .top }
    else if c = '\\' ∨ c = '-' ∨ c = '[' then none
    else some { st with mode := .cls neg false (c :: cs) }
  | .top =>
    if c = '\\' then some { st with mode := .esc }
    else if c = '[' then some { st with mode := .cls false true [] }
    else if c = '(' then
      some { st with
        prog := .save (2 * (st.ngroup + 1)) :: st.prog,
        ngroup := st.ngroup + 1,
        opened := (st.ngroup + 1) :: st.opened }
    else if c = ')' then
      match st.opened with
      | g :: gs => some { st with prog := .save (2 * g + 1) :: st.prog, opened := gs }
      | [] => none
    else if c = '*' then
      match st.prog with
      | .one a :: is => some { st with prog := .star a :: is }
      | _ => none
    else if c = '+' then
      match st.prog with
      | .one a :: is => some { st with prog := .plus a :: is }
      | _ => none
    else if c = '.' then some { st with prog := .one .anyNotNL :: st.prog }
    else if c = '?' ∨ c = '|' ∨ c = '{' ∨ c = '}' ∨ c = '^' ∨ c = '$' ∨ c = ']' then none
    else some { st with prog := .one (.char c) :: st.prog }

/-- The whole pattern, character by character. -/
def compileChars : List Char → CState → Option CState
  | [], st => some st
  | c :: cs, st =>
    match compileStep st c with
    | some st1 => compileChars cs st1
    | none => none

/-- A compiled pattern: its instructions and the number of capture slots, two
for the whole match and two for each group. -/
structure Regexp where
  prog : List Inst
  numCap : Nat
  deriving DecidableEq, Repr

/-- Model of `regexp.Compile` on the modelled fragment. -/
def regexpCompile (pattern : String) : Option Regexp :=
  match compileChars pattern.data { prog := [], ngroup := 0, opened := [], mode := .top } with
  | some st =>
    if st.mode = .top ∧ st.opened = [] then
      some { prog := st.prog.reverse, numCap := 2 * (st.ngroup + 1) }
    else none
  | none => none

/-- The Go variable `schedResultRegexp`: the pattern compiled once at start-up
(`none` would be the start-up failure of `regexp.MustCompile`). -/
def schedResultRegexp : Option Regexp :=
  regexpCompile schedResultPattern

/-- Capture slots of a thread: `none` is the unset slot (`-1` in Go). -/
abbrev Caps := List (Option Nat)

/-- Greedy repetition of a single-character test `t`, then the continuation
`k`: the longest run is tried first, and the run is shortened one character at
a time while the continuation fails. -/
def starLoop (t : Char → Bool) (k : Nat → List Char → Option Caps) :
    Nat → List Char → Option Caps
  | pos, [] => k pos []
  | pos, x :: xs =>
    if t x then
      match starLoop t k (pos + 1) xs with
      | some r => some r
      | none => k pos (x :: xs)
    else k pos (x :: xs)

/-- Backtracking run of the instructions at position `pos`, where `s` is the
input from `pos` on. At the end of the program the position is recorded in
slot 1 and the slots are returned. -/
def run : List Inst → Caps → Nat → List Char → Option Caps
  | [], cap, pos, _ => some (cap.set 1 (some pos))
  | .one c :: is, cap, pos, s =>
    match s with
    | x :: xs => if c.test x then run is cap (pos + 1) xs else none
    | [] => none
  | .star c :: is, cap, pos, s => starLoop c.test (fun p r => run is cap p r) pos s
  | .plus c :: is, cap, pos, s =>
    match s with
    | x :: xs => if c.test x then starLoop c.test (fun p r => run is cap p r) (pos + 1) xs else none
    | [] => none
  | .save n :: is, cap, pos, s => run is (cap.set n (some pos)) pos s

/-- The slots at the start of an attempt at position `pos`. -/
def initCaps (re : Regexp) (pos : Nat) : Caps :=
  (List.replicate re.numCap none).set 0 (some pos)

/-- Unanchored search from `pos` (with `s` the input from `pos` on): the match
of the leftmost starting position at which the program matches, slot 0 holding
that position. -/
def search (re : Regexp) : Nat → List Char → Option Caps
  | pos, [] => run re.prog (initCaps re pos) pos []
  | pos, x :: xs =>
    match run re.prog (initCaps re pos) pos (x :: xs) with
    | some cap => some cap
    | none => search re (pos + 1) xs

/-- The loop of `Regexp.allMatches`: successive searches from `pos`, each
starting where the previous match ended (one character further after an empty
match), an empty match right after the previous match being skipped. `i` counts
the matches delivered (at most `n`), `prev` is the end of the previous match
(`none` for `-1`). The loop runs at most `fuel` iterations, and is `unfinished`
when they do not suffice. -/
def allMatchesLoop (re : Regexp) (s : List Char) (n : Nat) :
    Nat → Nat → Nat → Option Nat → Outcome (List Caps)
  | 0, _, _, _ => .unfinished
  | fuel + 1, pos, i, prev =>
    if i < n ∧ pos ≤ s.length then
      match search re pos (s.drop pos) with
      | none => .ok []
      | some cap =>
        match cap.getD 1 none with
        | none => .fault
        | some m1 =>
          let accept : Bool := !(m1 == pos && cap.getD 0 none == prev)
          let pos1 := if m1 = pos then pos + 1 else m1
          (allMatchesLoop re s n fuel pos1 (if accept then i + 1 else i) (some m1)).bind
            fun rest => .ok (if accept then cap :: rest else rest)
    else .ok []

/-- Go slice expression `s[a:b]` on a string. -/
def substr (s : List Char) (a b : Nat) : String :=
  String.mk ((s.drop a).take (b - a))

/-- The text of group `j` of a match (the whole match for `j = 0`): the input
between the two positions of its slots, empty when the group did not take
part. -/
def submatch (s : List Char) (cap : Caps) (j : Nat) : String :=
  match cap.getD (2 * j) none, cap.getD (2 * j + 1) none with
  | some a, some b => substr s a b
  | _, _ => ""

/-- The strings of one match, one for each of the `n` groups. -/
def submatchStrings (s : List Char) (cap : Caps) (n : Nat) : List String :=
  (List.range n).map (submatch s cap)

/-- Model of `re.FindAllStringSubmatch(s, -1)`: all successive matches, each
as the slice of its `numCap / 2` strings; the nil slice when there is none. -/
def FindAllStringSubmatch (re : Regexp) (s : String) : Outcome (Slice (Slice String)) :=
  (allMatchesLoop re s.data (s.data.length + 1) (s.data.length + 2) 0 0 none).bind fun ms =>
    match ms with
    | [] => .ok .nil
    | _ => .ok (.elems (ms.map fun cap =>
        .elems (submatchStrings s.data cap (re.numCap / 2))))

/-! ### Declarative reading of a program

Used to state what a successful run implies, whatever the order in which the
matcher tries the alternatives. -/

/-- The program can be run from the slots `cap` at position `pos`, with `s` the
input from `pos` on, so as to end in a state satisfying `Q`: every instruction
consumes a piece of input it accepts. -/
def Reach (Q : Caps → Nat → List Char → Prop) : List Inst → Caps → Nat → List Char → Prop
  | [], cap, pos, s => Q cap pos s
  | .one c :: is, cap, pos, s =>
    ∃ x xs, s = x :: xs ∧ c.test x = true ∧ Reach Q is cap (pos + 1) xs
  | .star c :: is, cap, pos, s =>
    ∃ w r, s = w ++ r ∧ (∀ x ∈ w, c.test x = true) ∧ Reach Q is cap (pos + w.length) r
  | .plus c :: is, cap, pos, s =>
    ∃ w r, w ≠ [] ∧ s = w ++ r ∧ (∀ x ∈ w, c.test x = true) ∧
      Reach Q is cap (pos + w.length) r
  | .save n :: is, cap, pos, s => Reach Q is (cap.set n (some pos)) pos s

/-- The list `s` is the input `inp` from position `pos` on. -/
def At (inp : List Char) (pos : Nat) (s : List Char) : Prop :=
  ∃ pre, inp = pre ++ s ∧ pre.length = pos

/-- The program records no position. -/
def noSave : List Inst → Bool
  | [] => true
  | .save _ :: _ => false
  | _ :: is => noSave is

/-- Instructions matching the characters of `s` one by one. -/
def lits (s : String) : List Inst :=
  s.data.map fun c => .one (.char c)

/-- The instructions of `schedResultPattern`, laid out as stretches of literal
text and repetitions around its three groups. That the pattern compiles to
them is `schedResultRegexp_eq`. -/
def schedProgram : Regexp :=
  { prog :=
      lits "&gt;&nbsp;" ++ (.save 2 :: .plus (.notIn ['<']) :: .save 3 ::
      ((lits "</div>" ++ .star .anyNotNL :: lits ">") ++
        (.save 4 :: .plus .word :: .save 5 ::
      ((lits "</a>" ++ .star .anyNotNL :: lits "<div class=\"schmsg" ++ .one .anyNotNL ::
          lits "\"><b>") ++
        (.save 6 :: .plus (.notIn ['<']) :: .save 7 ::
      (lits "</b>" ++ []))))))
    numCap := 8 }

/-- The successive non-overlapping matches of `re` in `s` from position `pos`
on, in document order: each is the leftmost match that starts at or after the
end of the one before, and there is none after the last. (Meant for a pattern
without empty matches, as `schedResultPattern` is.) -/
inductive Successive (re : Regexp) (s : List Char) : Nat → List Caps → Prop where
  | done (pos : Nat) (h : search re pos (s.drop pos) = none) : Successive re s pos []
  | next (pos : Nat) (cap : Caps) (e : Nat) (rest : List Caps)
      (h : search re pos (s.drop pos) = some cap) (he : cap.getD 1 none = some e)
      (hr : Successive re s e rest) : Successive re s pos (cap :: rest)

/-- The Go struct `train`. -/
structure train where
  Destination : String
  Mission : String
  Stop : String
  deriving DecidableEq, Repr

/-- The entry built from capture groups 1, 2 and 3 of a match. -/
def trainOfMatch (s : List Char) (cap : Caps) : train :=
  { Destination := submatch s cap 1, Mission := submatch s cap 2, Stop := submatch s cap 3 }

/-- The `for _, v := range matches` loop of `parseDelegateResult`, appending to
`trains`. -/
def appendTrains : List (Slice String) → List train → Outcome (List train)
  | [], trains => .ok trains
  | v :: vs, trains =>
    (v.index 1).bind fun d =>
    (v.index 2).bind fun m =>
    (v.index 3).bind fun st =>
    appendTrains vs (trains ++ [{ Destination := d, Mission := m, Stop := st }])

/-- Go `range` over a slice: the elements, none for the nil slice. -/
def Slice.toList {α : Type} : Slice α → List α
  | .nil => []
  | .elems xs => xs

/-- The Go function `parseDelegateResult`; `trains` starts as the non-nil empty
slice `make([]train, 0, 10)`. -/
def parseDelegateResult (schedResult : String) : Outcome (Slice train) :=
  match schedResultRegexp with
  | none => .fault
  | some re =>
    (FindAllStringSubmatch re schedResult).bind fun found =>
    (appendTrains found.toList []).bind fun trains =>
    .ok (.elems trains)

/-! ## Response encoder -/

/-- A JSON document. A number stands for the `float64` count of seconds of a
duration, which the embedding carries as whole nanoseconds; how
`encoding/json` prints the float is not modelled. -/
inductive JSON where
  | null : JSON
  | number (nanoseconds : Nat) : JSON
  | str (s : String) : JSON
  | array (items : List JSON) : JSON
  | object (fields : List (String × JSON)) : JSON

/-- The value of the key `k` of a JSON object. -/
def JSON.field (doc : JSON) (k : String) : Option JSON :=
  match doc with
  | .object fields => fields.lookup k
  | _ => none

/-- The Go struct `jsonResult`. -/
structure jsonResult where
  DelegateDuration : Nat
  IncomingTrains : Slice train

/-- Encoding of a `train`, by its field tags. -/
def marshalTrain (t : train) : JSON :=
  .object [("destination", .str t.Destination), ("mission", .str t.Mission),
    ("stop", .str t.Stop)]

/-- Encoding of a `[]train` by `encoding/json`: `null` for the nil slice, an
array otherwise. -/
def marshalTrains : Slice train → JSON
  | .nil => .null
  | .elems ts => .array (ts.map marshalTrain)

/-- Encoding of a `jsonResult`, by its field tags. -/
def marshalResult (r : jsonResult) : JSON :=
  .object [("duration_s", .number r.DelegateDuration),
    ("incoming_trains", marshalTrains r.IncomingTrains)]

/-- Output of `json.Marshal` or `json.MarshalIndent`: the document, and whether
it is laid out over several lines with a two-space indent. -/
structure Encoded where
  doc : JSON
  indent : Bool

/-- The Go function `mkMarshalFunc`, applied to a `jsonResult`. -/
def mkMarshalFunc (pretty : Bool) (input : jsonResult) : Outcome Encoded :=
  if pretty then .ok { doc := marshalResult input, indent := true }
  else .ok { doc := marshalResult input, indent := false }

/-! ## Request orchestrator -/

/-- What has been written to the body of a response. -/
inductive Written where
  | text (s : String) : Written
  | json (e : Encoded) : Written

/-- State of an `http.ResponseWriter`: the header map, the status code once
sent, and the pieces written to the body. -/
structure ResponseWriter where
  header : List (String × String)
  status : Option Nat
  body : List Written

/-- A response writer nothing has been done to. -/
def ResponseWriter.fresh : ResponseWriter :=
  { header := [], status := none, body := [] }

/-- Go `writer.Header().Set(k, v)`. -/
def ResponseWriter.setHeader (w : ResponseWriter) (k v : String) : ResponseWriter :=
  { w with header := (w.header.filter fun kv => kv.1 != k) ++ [(k, v)] }

/-- Go `writer.WriteHeader(code)`: the first status sent is the one kept. -/
def ResponseWriter.writeHeader (w : ResponseWriter) (code : Nat) : ResponseWriter :=
  match w.status with
  | none => { w with status := some code }
  | some _ => w

/-- A write to the body; status 200 is sent first when none has been. -/
def ResponseWriter.write (w : ResponseWriter) (x : Written) : ResponseWriter :=
  { w.writeHeader 200 with body := w.body ++ [x] }

/-- The upstream service and the clock, as seen by one request: `fetch` is
`queryDelegateBackend` (the body, or the cause of the failure), and `elapsed`
the nanoseconds `time.Since(startTime)` measures around it. -/
structure Backend where
  fetch : String → Except String String
  elapsed : String → Nat

/-- Effects of handling a request: the response writer, and the URLs fetched
from the upstream service, in order. -/
structure Effects where
  writer : ResponseWriter
  fetched : List String

/-- The Go function `worker`, on the request's parsed query `q`. It returns the
effects and the returned error (`.ok ()` for a nil error). -/
def worker (b : Backend) (writer : ResponseWriter) (q : Values) : Effects × Outcome Unit :=
  match buildDelegateURL q with
  | .error err =>
    ({ writer := writer, fetched := [] }, .error ("Failed to build delegate URL: " ++ err))
  | .fault => ({ writer := writer, fetched := [] }, .fault)
  | .unfinished => ({ writer := writer, fetched := [] }, .unfinished)
  | .ok delegateURL =>
    match b.fetch delegateURL with
    | .error err =>
      ({ writer := writer, fetched := [delegateURL] },
        .error ("Failed to query RATP service: " ++ err))
    | .ok delegateResult =>
      match parseDelegateResult delegateResult with
      | .error err =>
        ({ writer := writer, fetched := [delegateURL] },
          .error ("Failed to parse output of RATP service: " ++ err))
      | .fault => ({ writer := writer, fetched := [delegateURL] }, .fault)
      | .unfinished => ({ writer := writer, fetched := [delegateURL] }, .unfinished)
      | .ok trains =>
        match mkMarshalFunc (decide (q.get "pretty" ≠ .nil))
            { IncomingTrains := trains, DelegateDuration := b.elapsed delegateURL } with
        | .error err =>
          ({ writer := writer, fetched := [delegateURL] },
            .error ("Failed to encode result to JSON: " ++ err))
        | .fault => ({ writer := writer, fetched := [delegateURL] }, .fault)
        | .unfinished => ({ writer := writer, fetched := [delegateURL] }, .unfinished)
        | .ok jsonTrains =>
          ({ writer := ((writer.setHeader "Content-Type" "application/json").setHeader
                "Access-Control-Allow-Origin" "*").write (.json jsonTrains),
             fetched := [delegateURL] }, .ok ())

/-- Go `http.Error(w, msg, code)`: a plain-text response with the message and a
newline as its body. -/
def httpError (w : ResponseWriter) (msg : String) (code : Nat) : ResponseWriter :=
  (((w.setHeader "Content-Type" "text/plain; charset=utf-8").setHeader
    "X-Content-Type-Options" "nosniff").writeHeader code).write (.text (msg ++ "\n"))

/-- The Go function `errorHandler` applied to `f`, serving one request on a
fresh response writer: an error returned by `f` becomes a response of status
500 carrying the message. -/
def errorHandler (f : Backend → ResponseWriter → Values → Effects × Outcome Unit)
    (b : Backend) (q : Values) : Effects :=
  match f b ResponseWriter.fresh q with
  | (eff, .error msg) => { eff with writer := httpError eff.writer msg 500 }
  | (eff, _) => eff

/-! # Theorems -/

set_option maxRecDepth 100000

/-! ## ScheduleQuery builder -/

theorem get_of_has_false (q : Values) (k : String) (h : q.has k = false) :
    q.get k = .nil := by
  unfold Values.has at h
  unfold Values.get
  cases hl : q.lookup k with
  | none => rfl
  | some v => simp [hl] at h

theorem parsed_of_lookup (q : Values) (hq : q.parsed = true) (k : String)
    (v : Slice String) (h : q.lookup k = some v) : ∃ x xs, v = .elems (x :: xs) := by
  induction q with
  | nil => simp at h
  | cons kv q ih =>
    obtain ⟨k1, v1⟩ := kv
    simp only [Values.parsed, List.all_cons, Bool.and_eq_true] at hq
    by_cases hk : k = k1
    · subst hk
      simp [List.lookup] at h
      subst h
      obtain ⟨h1, _⟩ := hq
      cases v1 with
      | nil => simp at h1
      | elems xs =>
        cases xs with
        | nil => simp at h1
        | cons x xs => exact ⟨x, xs, rfl⟩
    · have hne : (k == k1) = false := by simpa using hk
      simp only [List.lookup, hne] at h
      exact ih hq.2 h

theorem get_of_has_true (q : Values) (hq : q.parsed = true) (k : String)
    (h : q.has k = true) : ∃ x xs, q.get k = .elems (x :: xs) := by
  unfold Values.has at h
  cases hl : q.lookup k with
  | none => simp [hl] at h
  | some v =>
    obtain ⟨x, xs, hv⟩ := parsed_of_lookup q hq k v hl
    exact ⟨x, xs, by simp [Values.get, hl, hv]⟩

theorem buildSchedQuery_of_values (q : Values) (l d s : String) (ls ds ss : List String)
    (hl : q.get "line" = .elems (l :: ls)) (hd : q.get "direction" = .elems (d :: ds))
    (hs : q.get "station" = .elems (s :: ss)) :
    buildSchedQuery q = .ok { Mode := "rer", Line := l, Direction := d, Station := s } := by
  simp [buildSchedQuery, checkMandatory, mandatoryParameters, hl, hd, hs, Slice.index,
    Outcome.bind]

theorem buildSchedQuery_of_nil_line (q : Values) (h : q.get "line" = .nil) :
    buildSchedQuery q = .error "Missing mandatory parameter 'line'" := by
  simp [buildSchedQuery, checkMandatory, mandatoryParameters, h]

theorem buildSchedQuery_of_nil_direction (q : Values) (h1 : q.get "line" ≠ .nil)
    (h : q.get "direction" = .nil) :
    buildSchedQuery q = .error "Missing mandatory parameter 'direction'" := by
  simp [buildSchedQuery, checkMandatory, mandatoryParameters, h, h1]

theorem buildSchedQuery_of_nil_station (q : Values) (h1 : q.get "line" ≠ .nil)
    (h2 : q.get "direction" ≠ .nil) (h : q.get "station" = .nil) :
    buildSchedQuery q = .error "Missing mandatory parameter 'station'" := by
  simp [buildSchedQuery, checkMandatory, mandatoryParameters, h, h1, h2]

/-- C1: on a parameter map as parsed from a query string, `buildSchedQuery`
returns an error if and only if one of the keys line, direction, station is
absent, and succeeds otherwise; the message of the error names the first absent
key in the order line, direction, station. -/
theorem buildSchedQuery_error_iff_absent (q : Values) (hq : q.parsed = true) :
    ((∃ msg, buildSchedQuery q = .error msg) ↔
      (q.has "line" = false ∨ q.has "direction" = false ∨ q.has "station" = false)) ∧
    ((q.has "line" = true ∧ q.has "direction" = true ∧ q.has "station" = true) →
      ∃ sq, buildSchedQuery q = .ok sq) ∧
    (q.has "line" = false →
      buildSchedQuery q = .error "Missing mandatory parameter 'line'") ∧
    (q.has "line" = true → q.has "direction" = false →
      buildSchedQuery q = .error "Missing mandatory parameter 'direction'") ∧
    (q.has "line" = true → q.has "direction" = true → q.has "station" = false →
      buildSchedQuery q = .error "Missing mandatory parameter 'station'") := by
  have key : ∀ k, (q.has k = false ∧ q.get k = .nil) ∨
      (q.has k = true ∧ ∃ x xs, q.get k = .elems (x :: xs)) := by
    intro k
    cases h : q.has k with
    | false => exact Or.inl ⟨rfl, get_of_has_false q k h⟩
    | true => exact Or.inr ⟨rfl, get_of_has_true q hq k h⟩
  rcases key "line" with ⟨hl, gl⟩ | ⟨hl, l, ls, gl⟩
  · have e := buildSchedQuery_of_nil_line q gl
    simp [hl, e]
  · rcases key "direction" with ⟨hd, gd⟩ | ⟨hd, d, ds, gd⟩
    · have e := buildSchedQuery_of_nil_direction q (by simp [gl]) gd
      simp [hl, hd, e]
    · rcases key "station" with ⟨hs, gs⟩ | ⟨hs, s, ss, gs⟩
      · have e := buildSchedQuery_of_nil_station q (by simp [gl]) (by simp [gd]) gs
        simp [hl, hd, hs, e]
      · have e := buildSchedQuery_of_values q l d s ls ds ss gl gd gs
        simp [hl, hd, hs, e]

/-- Witness of C1: the query `line=A&station=Nation` lacks `direction`. -/
theorem buildSchedQuery_error_iff_absent_witness :
    Values.parsed [("line", .elems ["A"]), ("station", .elems ["Nation"])] = true ∧
    buildSchedQuery [("line", .elems ["A"]), ("station", .elems ["Nation"])] =
      .error "Missing mandatory parameter 'direction'" :=
  ⟨by decide,
    (buildSchedQuery_error_iff_absent
      [("line", .elems ["A"]), ("station", .elems ["Nation"])] (by decide)).2.2.2.1
      (by decide) (by decide)⟩

/-- C2: when line, direction and station each hold at least one value,
`buildSchedQuery` succeeds with Mode `"rer"` and the first value of each
parameter, unchanged; any other map with the same first values gives the same
query, whatever its further values and other parameters. -/
theorem buildSchedQuery_first_values (q : Values) (l d s : String) (ls ds ss : List String)
    (hl : q.get "line" = .elems (l :: ls)) (hd : q.get "direction" = .elems (d :: ds))
    (hs : q.get "station" = .elems (s :: ss)) :
    buildSchedQuery q = .ok { Mode := "rer", Line := l, Direction := d, Station := s } ∧
    ∀ (q1 : Values) (ls1 ds1 ss1 : List String),
      q1.get "line" = .elems (l :: ls1) → q1.get "direction" = .elems (d :: ds1) →
      q1.get "station" = .elems (s :: ss1) → buildSchedQuery q1 = buildSchedQuery q := by
  refine ⟨buildSchedQuery_of_values q l d s ls ds ss hl hd hs, ?_⟩
  intro q1 ls1 ds1 ss1 h1 h2 h3
  rw [buildSchedQuery_of_values q l d s ls ds ss hl hd hs,
    buildSchedQuery_of_values q1 l d s ls1 ds1 ss1 h1 h2 h3]

/-- Witness of C2: `line=A&line=B&direction=1&station=Nation&pretty=`. -/
theorem buildSchedQuery_first_values_witness :
    buildSchedQuery [("line", .elems ["A", "B"]), ("direction", .elems ["1"]),
        ("station", .elems ["Nation"]), ("pretty", .elems [""])] =
      .ok { Mode := "rer", Line := "A", Direction := "1", Station := "Nation" } :=
  (buildSchedQuery_first_values
    [("line", .elems ["A", "B"]), ("direction", .elems ["1"]),
      ("station", .elems ["Nation"]), ("pretty", .elems [""])]
    "A" "1" "Nation" ["B"] [] [] (by decide) (by decide) (by decide)).1

/-- C3 as stated fails: the query `line=&direction=1&station=Nation` is accepted
and the resulting Line is the empty string. -/
theorem empty_line_value_accepted :
    buildSchedQuery [("line", .elems [""]), ("direction", .elems ["1"]),
        ("station", .elems ["Nation"])] =
      .ok { Mode := "rer", Line := "", Direction := "1", Station := "Nation" } ∧
    ¬ (∀ (q : Values) (sq : schedQuery), buildSchedQuery q = .ok sq →
        sq.Mode ≠ "" ∧ sq.Line ≠ "" ∧ sq.Direction ≠ "" ∧ sq.Station ≠ "") := by
  refine ⟨by decide, ?_⟩
  intro h
  have h1 := h [("line", .elems [""]), ("direction", .elems ["1"]),
    ("station", .elems ["Nation"])]
    { Mode := "rer", Line := "", Direction := "1", Station := "Nation" } (by decide)
  exact h1.2.1 rfl

/-- C3, amended: when `buildSchedQuery` succeeds, Mode is the non-empty literal
`"rer"`, and Line, Direction and Station are the first values of their
parameters, so each is non-empty exactly when that first value is. -/
theorem buildSchedQuery_fields (q : Values) (sq : schedQuery)
    (h : buildSchedQuery q = .ok sq) :
    sq.Mode = "rer" ∧ sq.Mode ≠ "" ∧
    ∃ (l d s : String) (ls ds ss : List String),
      q.get "line" = .elems (l :: ls) ∧ q.get "direction" = .elems (d :: ds) ∧
      q.get "station" = .elems (s :: ss) ∧
      sq.Line = l ∧ sq.Direction = d ∧ sq.Station = s ∧
      (sq.Line ≠ "" ↔ l ≠ "") ∧ (sq.Direction ≠ "" ↔ d ≠ "") ∧ (sq.Station ≠ "" ↔ s ≠ "") := by
  have key : ∀ k, q.get k = .nil ∨ q.get k = .elems [] ∨ ∃ x xs, q.get k = .elems (x :: xs) := by
    intro k
    cases q.get k with
    | nil => exact Or.inl rfl
    | elems xs =>
      cases xs with
      | nil => exact Or.inr (Or.inl rfl)
      | cons x xs => exact Or.inr (Or.inr ⟨x, xs, rfl⟩)
  rcases key "line" with gl | gl | ⟨l, ls, gl⟩
  · rw [buildSchedQuery_of_nil_line q gl] at h; cases h
  · simp [buildSchedQuery, checkMandatory, mandatoryParameters, gl, Slice.index,
      Outcome.bind] at h
    split at h <;> simp at h
  · rcases key "direction" with gd | gd | ⟨d, ds, gd⟩
    · rw [buildSchedQuery_of_nil_direction q (by simp [gl]) gd] at h; cases h
    · simp [buildSchedQuery, checkMandatory, mandatoryParameters, gl, gd, Slice.index,
        Outcome.bind] at h
      split at h <;> simp at h
    · rcases key "station" with gs | gs | ⟨s, ss, gs⟩
      · rw [buildSchedQuery_of_nil_station q (by simp [gl]) (by simp [gd]) gs] at h; cases h
      · simp [buildSchedQuery, checkMandatory, mandatoryParameters, gl, gd, gs, Slice.index,
          Outcome.bind] at h
      · rw [buildSchedQuery_of_values q l d s ls ds ss gl gd gs] at h
        cases h
        have hm : ("rer" : String) ≠ "" := by decide
        exact ⟨rfl, hm, l, d, s, ls, ds, ss, gl, gd, gs, rfl, rfl, rfl,
          Iff.rfl, Iff.rfl, Iff.rfl⟩

/-- Witness of the amended C3, on `line=&direction=1&station=Nation`. -/
theorem buildSchedQuery_fields_witness :
    buildSchedQuery [("line", .elems [""]), ("direction", .elems ["1"]),
        ("station", .elems ["Nation"])] =
      .ok { Mode := "rer", Line := "", Direction := "1", Station := "Nation" } ∧
    (("rer" : String) = "rer" ∧ ("rer" : String) ≠ "" ∧
      ∃ (l d s : String) (ls ds ss : List String),
        Values.get [("line", .elems [""]), ("direction", .elems ["1"]),
            ("station", .elems ["Nation"])] "line" = .elems (l :: ls) ∧
        Values.get [("line", .elems [""]), ("direction", .elems ["1"]),
            ("station", .elems ["Nation"])] "direction" = .elems (d :: ds) ∧
        Values.get [("line", .elems [""]), ("direction", .elems ["1"]),
            ("station", .elems ["Nation"])] "station" = .elems (s :: ss) ∧
        ("" : String) = l ∧ ("1" : String) = d ∧ ("Nation" : String) = s ∧
        (("" : String) ≠ "" ↔ l ≠ "") ∧ (("1" : String) ≠ "" ↔ d ≠ "") ∧
        (("Nation" : String) ≠ "" ↔ s ≠ "")) :=
  ⟨by decide,
    buildSchedQuery_fields
      [("line", .elems [""]), ("direction", .elems ["1"]), ("station", .elems ["Nation"])]
      { Mode := "rer", Line := "", Direction := "1", Station := "Nation" } (by decide)⟩

/-! ## Upstream URL composer -/

theorem delegateUrlTemplate_eq :
    delegateUrlTemplate = some [
      .text "http://wap.ratp.fr/siv/schedule?service=next&reseau=", .field "Mode",
      .text "&lineid=", .field "Line", .text "&directionsens=", .field "Direction",
      .text "&stationname=", .field "Station", .text "\""] := by
  decide

theorem executeTemplate_core (sq : schedQuery) :
    executeTemplate sq =
      .ok ("http://wap.ratp.fr/siv/schedule?service=next&reseau=" ++ sq.Mode ++
        "&lineid=" ++ sq.Line ++ "&directionsens=" ++ sq.Direction ++
        "&stationname=" ++ sq.Station ++ "\"") := by
  simp [executeTemplate, delegateUrlTemplate_eq, executeNodes, schedQuery.field,
    String.append_assoc]

/-- C4: composing the URL of a query never fails, and the URL is the text of the
template with Mode, Line, Direction and Station put in verbatim and unescaped,
in this order, followed by the double quote that ends the template. -/
theorem executeTemplate_eq (sq : schedQuery) :
    executeTemplate sq =
      .ok ("http://wap.ratp.fr/siv/schedule?service=next&reseau=" ++ sq.Mode ++
        "&lineid=" ++ sq.Line ++ "&directionsens=" ++ sq.Direction ++
        "&stationname=" ++ sq.Station ++ "\"") :=
  executeTemplate_core sq

/-! ## Result extractor -/

theorem starLoop_some (t : Char → Bool) (k : Nat → List Char → Option Caps) (s : List Char)
    (pos : Nat) (r : Caps) (h : starLoop t k pos s = some r) :
    ∃ w rest, s = w ++ rest ∧ (∀ x ∈ w, t x = true) ∧ k (pos + w.length) rest = some r := by
  induction s generalizing pos with
  | nil => exact ⟨[], [], rfl, by simp, by simpa [starLoop] using h⟩
  | cons x xs ih =>
    unfold starLoop at h
    by_cases hx : t x = true
    · simp only [hx, if_true] at h
      cases hr : starLoop t k (pos + 1) xs with
      | some r1 =>
        rw [hr] at h
        simp only [Option.some.injEq] at h
        subst h
        obtain ⟨w, rest, e, hw, hk⟩ := ih (pos + 1) hr
        refine ⟨x :: w, rest, by simp [e], ?_, ?_⟩
        · intro y hy
          rcases List.mem_cons.mp hy with rfl | hy
          · exact hx
          · exact hw y hy
        · simp only [List.length_cons]
          have e1 : pos + (w.length + 1) = pos + 1 + w.length := by omega
          rw [e1, hk]
      | none =>
        rw [hr] at h
        exact ⟨[], x :: xs, rfl, by simp, by simpa using h⟩
    · simp only [hx] at h
      exact ⟨[], x :: xs, rfl, by simp, by simpa using h⟩

theorem reach_mono {Q Q1 : Caps → Nat → List Char → Prop}
    (hq : ∀ c p r, Q c p r → Q1 c p r) (prog : List Inst) (cap : Caps) (pos : Nat)
    (s : List Char) (h : Reach Q prog cap pos s) : Reach Q1 prog cap pos s := by
  induction prog generalizing cap pos s with
  | nil => exact hq _ _ _ h
  | cons i is ih =>
    cases i with
    | one c =>
      obtain ⟨x, xs, e, hx, hr⟩ := h
      exact ⟨x, xs, e, hx, ih _ _ _ hr⟩
    | star c =>
      obtain ⟨w, r, e, hw, hr⟩ := h
      exact ⟨w, r, e, hw, ih _ _ _ hr⟩
    | plus c =>
      obtain ⟨w, r, hne, e, hw, hr⟩ := h
      exact ⟨w, r, hne, e, hw, ih _ _ _ hr⟩
    | save n => exact ih _ _ _ h

theorem run_reach (prog : List Inst) (cap : Caps) (pos : Nat) (s : List Char) (r : Caps)
    (h : run prog cap pos s = some r) :
    Reach (fun c p _ => r = c.set 1 (some p)) prog cap pos s := by
  induction prog generalizing cap pos s with
  | nil =>
    simp only [run, Option.some.injEq] at h
    exact h.symm
  | cons i is ih =>
    cases i with
    | one c =>
      cases s with
      | nil => simp [run] at h
      | cons x xs =>
        simp only [run] at h
        by_cases hx : c.test x = true
        · simp only [hx, if_true] at h
          exact ⟨x, xs, rfl, hx, ih _ _ _ h⟩
        · simp [hx] at h
    | star c =>
      simp only [run] at h
      obtain ⟨w, rest, e, hw, hk⟩ := starLoop_some _ _ _ _ _ h
      exact ⟨w, rest, e, hw, ih _ _ _ hk⟩
    | plus c =>
      cases s with
      | nil => simp [run] at h
      | cons x xs =>
        simp only [run] at h
        by_cases hx : c.test x = true
        · simp only [hx, if_true] at h
          obtain ⟨w, rest, e, hw, hk⟩ := starLoop_some _ _ _ _ _ h
          refine ⟨x :: w, rest, by simp, by simp [e], ?_, ?_⟩
          · intro y hy
            rcases List.mem_cons.mp hy with rfl | hy
            · exact hx
            · exact hw y hy
          · have e1 : pos + (x :: w).length = pos + 1 + w.length := by
              simp only [List.length_cons]; omega
            rw [e1]
            exact ih _ _ _ hk
        · simp [hx] at h
    | save n =>
      simp only [run] at h
      exact ih _ _ _ h

theorem at_append {inp : List Char} {pos : Nat} {w r : List Char} (h : At inp pos (w ++ r)) :
    At inp (pos + w.length) r := by
  obtain ⟨pre, e, hl⟩ := h
  exact ⟨pre ++ w, by simp [e], by simp [hl]⟩

theorem at_cons {inp : List Char} {pos : Nat} {x : Char} {xs : List Char}
    (h : At inp pos (x :: xs)) : At inp (pos + 1) xs :=
  @at_append inp pos [x] xs h

theorem at_length_eq {inp : List Char} {pos : Nat} {s : List Char} (h : At inp pos s) :
    pos + s.length = inp.length := by
  obtain ⟨pre, e, hl⟩ := h
  simp [e, hl]

theorem at_drop_eq {inp : List Char} {pos : Nat} {s : List Char} (h : At inp pos s) :
    inp.drop pos = s := by
  obtain ⟨pre, e, hl⟩ := h
  subst hl
  simp [e]

theorem at_of_drop (inp : List Char) (pos : Nat) (h : pos ≤ inp.length) :
    At inp pos (inp.drop pos) :=
  ⟨inp.take pos, by simp, by simp [h]⟩

theorem at_take_eq {inp : List Char} {pos : Nat} {w r : List Char} (h : At inp pos (w ++ r)) :
    (inp.drop pos).take w.length = w := by
  rw [(at_drop_eq h)]
  simp

theorem reach_track (inp : List Char) {Q : Caps → Nat → List Char → Prop} (prog : List Inst)
    (cap : Caps) (pos : Nat) (s : List Char) (h : Reach Q prog cap pos s)
    (hat : At inp pos s) :
    Reach (fun c p r => Q c p r ∧ At inp p r ∧ pos ≤ p ∧ c.length = cap.length)
      prog cap pos s := by
  induction prog generalizing cap pos s with
  | nil => exact ⟨h, hat, Nat.le_refl _, rfl⟩
  | cons i is ih =>
    cases i with
    | one c =>
      obtain ⟨x, xs, e, hx, hr⟩ := h
      subst e
      refine ⟨x, xs, rfl, hx, ?_⟩
      refine reach_mono ?_ _ _ _ _ (ih _ _ _ hr (at_cons hat))
      intro c1 p r ⟨h1, h2, h3, h4⟩
      exact ⟨h1, h2, by omega, h4⟩
    | star c =>
      obtain ⟨w, r, e, hw, hr⟩ := h
      subst e
      refine ⟨w, r, rfl, hw, ?_⟩
      refine reach_mono ?_ _ _ _ _ (ih _ _ _ hr (at_append hat))
      intro c1 p r ⟨h1, h2, h3, h4⟩
      exact ⟨h1, h2, by omega, h4⟩
    | plus c =>
      obtain ⟨w, r, hne, e, hw, hr⟩ := h
      subst e
      refine ⟨w, r, hne, rfl, hw, ?_⟩
      refine reach_mono ?_ _ _ _ _ (ih _ _ _ hr (at_append hat))
      intro c1 p r ⟨h1, h2, h3, h4⟩
      exact ⟨h1, h2, by omega, h4⟩
    | save n =>
      refine reach_mono ?_ _ _ _ _ (ih _ _ _ h hat)
      intro c1 p r ⟨h1, h2, h3, h4⟩
      exact ⟨h1, h2, h3, by simpa using h4⟩

theorem reach_append {Q : Caps → Nat → List Char → Prop} (p1 p2 : List Inst) (cap : Caps)
    (pos : Nat) (s : List Char) (h : Reach Q (p1 ++ p2) cap pos s) :
    Reach (fun c p r => Reach Q p2 c p r) p1 cap pos s := by
  induction p1 generalizing cap pos s with
  | nil => exact h
  | cons i is ih =>
    cases i with
    | one c =>
      obtain ⟨x, xs, e, hx, hr⟩ := h
      exact ⟨x, xs, e, hx, ih _ _ _ hr⟩
    | star c =>
      obtain ⟨w, r, e, hw, hr⟩ := h
      exact ⟨w, r, e, hw, ih _ _ _ hr⟩
    | plus c =>
      obtain ⟨w, r, hne, e, hw, hr⟩ := h
      exact ⟨w, r, hne, e, hw, ih _ _ _ hr⟩
    | save n => exact ih _ _ _ h

theorem reach_of_noSave {Q : Caps → Nat → List Char → Prop} (prog : List Inst) (cap : Caps)
    (pos : Nat) (s : List Char) (hn : noSave prog = true) (h : Reach Q prog cap pos s) :
    ∃ p r, Q cap p r := by
  induction prog generalizing pos s with
  | nil => exact ⟨pos, s, h⟩
  | cons i is ih =>
    cases i with
    | one c =>
      obtain ⟨x, xs, e, hx, hr⟩ := h
      exact ih _ _ (by simpa [noSave] using hn) hr
    | star c =>
      obtain ⟨w, r, e, hw, hr⟩ := h
      exact ih _ _ (by simpa [noSave] using hn) hr
    | plus c =>
      obtain ⟨w, r, hne, e, hw, hr⟩ := h
      exact ih _ _ (by simpa [noSave] using hn) hr
    | save n => simp [noSave] at hn

/-- A stretch of the program that records nothing leaves the slots as they are
and moves on in the input. -/
theorem reach_skip (inp : List Char) {Q : Caps → Nat → List Char → Prop} (p1 p2 : List Inst)
    (cap : Caps) (pos : Nat) (s : List Char) (hn : noSave p1 = true)
    (h : Reach Q (p1 ++ p2) cap pos s) (hat : At inp pos s) :
    ∃ p r, Reach Q p2 cap p r ∧ At inp p r ∧ pos ≤ p := by
  have h1 := reach_track inp _ _ _ _ (reach_append p1 p2 cap pos s h) hat
  obtain ⟨p, r, h2, h3, h4, _⟩ := reach_of_noSave _ _ _ _ hn h1
  exact ⟨p, r, h2, h3, h4⟩

/-- A group holding one `+` item: the two slots end up around a non-empty piece
of input whose characters the item accepts. -/
theorem reach_group (inp : List Char) {Q : Caps → Nat → List Char → Prop} (a b : Nat) (c : Cls)
    (p2 : List Inst) (cap : Caps) (pos : Nat) (s : List Char)
    (h : Reach Q (.save a :: .plus c :: .save b :: p2) cap pos s) (hat : At inp pos s) :
    ∃ w r, w ≠ [] ∧ (∀ x ∈ w, c.test x = true) ∧ (inp.drop pos).take w.length = w ∧
      At inp (pos + w.length) r ∧
      Reach Q p2 ((cap.set a (some pos)).set b (some (pos + w.length))) (pos + w.length) r := by
  obtain ⟨w, r, hne, e, hw, hr⟩ := h
  subst e
  exact ⟨w, r, hne, hw, (at_take_eq hat), (at_append hat), hr⟩

theorem schedResultRegexp_eq : schedResultRegexp = some schedProgram := by
  decide

theorem substr_of_take (inp : List Char) (p : Nat) (w : List Char)
    (h : (inp.drop p).take w.length = w) : substr inp p (p + w.length) = String.mk w := by
  simp [substr, h]

/-- What a match of the pattern holds: the three groups are non-empty pieces of
the input, the first and third without `<`, the second made of word
characters; the match starts at the position of the attempt and ends within
the input. -/
theorem run_schedProgram (inp : List Char) (p0 : Nat) (t0 : List Char) (cap : Caps)
    (h : run schedProgram.prog (initCaps schedProgram p0) p0 t0 = some cap)
    (hat : At inp p0 t0) :
    ∃ (w1 w2 w3 : List Char) (e : Nat),
      w1 ≠ [] ∧ (∀ x ∈ w1, (Cls.notIn ['<']).test x = true) ∧
      w2 ≠ [] ∧ (∀ x ∈ w2, Cls.word.test x = true) ∧
      w3 ≠ [] ∧ (∀ x ∈ w3, (Cls.notIn ['<']).test x = true) ∧
      submatch inp cap 1 = String.mk w1 ∧ submatch inp cap 2 = String.mk w2 ∧
      submatch inp cap 3 = String.mk w3 ∧
      cap.getD 0 none = some p0 ∧ cap.getD 1 none = some e ∧ p0 < e ∧ e ≤ inp.length := by
  have h0 := run_reach _ _ _ _ _ h
  obtain ⟨p1, r1, h1, at1, le1⟩ := reach_skip inp _ _ _ _ _ (by decide) h0 hat
  obtain ⟨w1, s1, ne1, hw1, tk1, at1', h1'⟩ := reach_group inp _ _ _ _ _ _ _ h1 at1
  obtain ⟨p2, r2, h2, at2, le2⟩ := reach_skip inp _ _ _ _ _ (by decide) h1' at1'
  obtain ⟨w2, s2, ne2, hw2, tk2, at2', h2'⟩ := reach_group inp _ _ _ _ _ _ _ h2 at2
  obtain ⟨p3, r3, h3, at3, le3⟩ := reach_skip inp _ _ _ _ _ (by decide) h2' at2'
  obtain ⟨w3, s3, ne3, hw3, tk3, at3', h3'⟩ := reach_group inp _ _ _ _ _ _ _ h3 at3
  obtain ⟨e, r4, h4, at4, le4⟩ := reach_skip inp _ _ _ _ _ (by decide) h3' at3'
  have hcap : cap = [some p0, some e, some p1, some (p1 + w1.length), some p2,
      some (p2 + w2.length), some p3, some (p3 + w3.length)] := by
    rw [show cap = _ from h4]
    rfl
  have he := (at_length_eq at4)
  have hl3 : 0 < w3.length := List.length_pos.mpr ne3
  refine ⟨w1, w2, w3, e, ne1, hw1, ne2, hw2, ne3, hw3, ?_, ?_, ?_, ?_, ?_, ?_, ?_⟩
  · rw [hcap]
    exact substr_of_take inp p1 w1 tk1
  · rw [hcap]
    exact substr_of_take inp p2 w2 tk2
  · rw [hcap]
    exact substr_of_take inp p3 w3 tk3
  · rw [hcap]; rfl
  · rw [hcap]; rfl
  · omega
  · omega

theorem search_some (re : Regexp) (inp : List Char) (cap : Caps) (t : List Char) (pos : Nat)
    (hat : At inp pos t) (h : search re pos t = some cap) :
    ∃ p0 t0, pos ≤ p0 ∧ At inp p0 t0 ∧ run re.prog (initCaps re p0) p0 t0 = some cap := by
  induction t generalizing pos with
  | nil => exact ⟨pos, [], Nat.le_refl _, hat, by simpa [search] using h⟩
  | cons x xs ih =>
    unfold search at h
    cases hr : run re.prog (initCaps re pos) pos (x :: xs) with
    | some c =>
      rw [hr] at h
      simp only [Option.some.injEq] at h
      subst h
      exact ⟨pos, x :: xs, Nat.le_refl _, hat, hr⟩
    | none =>
      rw [hr] at h
      obtain ⟨p0, t0, h1, h2, h3⟩ := ih (pos + 1) (at_cons hat) h
      exact ⟨p0, t0, by omega, h2, h3⟩

/-- The loop of `allMatches` on the pattern ends within its iteration bound, and
delivers the successive matches: no match is empty, so none is skipped, and
the bound on their number is never reached. -/
theorem allMatchesLoop_schedProgram (s : List Char) (fuel pos i : Nat) (prev : Option Nat)
    (hf : s.length + 2 ≤ fuel + pos) (hp : pos ≤ s.length) (hi : i ≤ pos) :
    ∃ ms, allMatchesLoop schedProgram s (s.length + 1) fuel pos i prev = .ok ms ∧
      Successive schedProgram s pos ms := by
  induction fuel generalizing pos i prev with
  | zero => omega
  | succ fuel ih =>
    unfold allMatchesLoop
    have hc : i < s.length + 1 ∧ pos ≤ s.length := ⟨by omega, hp⟩
    simp only [hc, and_self, if_true]
    cases hs : search schedProgram pos (s.drop pos) with
    | none => exact ⟨[], rfl, Successive.done pos hs⟩
    | some cap =>
      obtain ⟨p0, t0, h1, h2, h3⟩ := search_some _ s cap _ pos (at_of_drop s pos hp) hs
      obtain ⟨_, _, _, e, _, _, _, _, _, _, _, _, _, _, he, hlt, hle⟩ :=
        run_schedProgram s p0 t0 cap h3 h2
      have hne : e ≠ pos := by omega
      obtain ⟨ms, hm, hsucc⟩ := ih e (i + 1) (some e) (by omega) hle (by omega)
      refine ⟨cap :: ms, ?_, Successive.next pos cap e ms hs he hsucc⟩
      have he1 : cap[1]?.getD none = some e := by simpa using he
      simp [he1, hne, hm, Outcome.bind]

theorem successive_unique (re : Regexp) (s : List Char) (pos : Nat) (ms ms1 : List Caps)
    (h : Successive re s pos ms) (h1 : Successive re s pos ms1) : ms1 = ms := by
  induction h generalizing ms1 with
  | done pos hn =>
    cases h1 with
    | done _ _ => rfl
    | next _ cap e rest hs he hr => rw [hn] at hs; cases hs
  | next pos cap e rest hs he hr ih =>
    cases h1 with
    | done _ hn => rw [hn] at hs; cases hs
    | next _ cap1 e1 rest1 hs1 he1 hr1 =>
      rw [hs] at hs1
      cases hs1
      rw [he] at he1
      cases he1
      rw [ih rest1 hr1]

theorem successive_run_of_mem (s : List Char) (pos : Nat) (ms : List Caps)
    (h : Successive schedProgram s pos ms) (hp : pos ≤ s.length) :
    ∀ cap ∈ ms, ∃ p0 t0, At s p0 t0 ∧
      run schedProgram.prog (initCaps schedProgram p0) p0 t0 = some cap := by
  induction h with
  | done pos hn => simp
  | next pos cap e rest hs he hr ih =>
    obtain ⟨p0, t0, h1, h2, h3⟩ := search_some _ s cap _ pos (at_of_drop s pos hp) hs
    obtain ⟨_, _, _, e1, _, _, _, _, _, _, _, _, _, _, he1, hlt, hle⟩ :=
      run_schedProgram s p0 t0 cap h3 h2
    rw [he] at he1
    cases he1
    intro c hc
    rcases List.mem_cons.mp hc with rfl | hc
    · exact ⟨p0, t0, h2, h3⟩
    · exact ih hle c hc

theorem appendTrains_map (s : List Char) (ms : List Caps) (acc : List train) :
    appendTrains (ms.map fun cap => Slice.elems (submatchStrings s cap 4)) acc =
      .ok (acc ++ ms.map (trainOfMatch s)) := by
  induction ms generalizing acc with
  | nil => simp [appendTrains]
  | cons cap ms ih =>
    have e : submatchStrings s cap 4 =
        [submatch s cap 0, submatch s cap 1, submatch s cap 2, submatch s cap 3] := rfl
    simp only [List.map_cons, appendTrains, e, Slice.index, List.get?, Outcome.bind, ih]
    simp [trainOfMatch]

theorem parseDelegateResult_of_loop (body : String) (ms : List Caps)
    (h : allMatchesLoop schedProgram body.data (body.data.length + 1)
      (body.data.length + 2) 0 0 none = .ok ms) :
    parseDelegateResult body = .ok (.elems (ms.map (trainOfMatch body.data))) := by
  have e : schedProgram.numCap / 2 = 4 := rfl
  simp only [parseDelegateResult, schedResultRegexp_eq, FindAllStringSubmatch, h, Outcome.bind, e]
  cases ms with
  | nil => simp [Slice.toList, appendTrains]
  | cons cap ms =>
    simp only [Slice.toList]
    rw [appendTrains_map]
    simp

theorem parseDelegateResult_successive (body : String) :
    ∃ ms, Successive schedProgram body.data 0 ms ∧
      parseDelegateResult body = .ok (.elems (ms.map (trainOfMatch body.data))) := by
  obtain ⟨ms, h1, h2⟩ := allMatchesLoop_schedProgram body.data (body.data.length + 2) 0 0 none
    (by omega) (Nat.zero_le _) (Nat.le_refl _)
  exact ⟨ms, h2, parseDelegateResult_of_loop body ms h1⟩

/-- C5: for every body, `parseDelegateResult` returns no error. With `ms` the
successive non-overlapping matches of the pattern in the body, in document
order, it returns a sequence of the same length whose i-th entry is made of
capture groups 1, 2 and 3 of the i-th match. -/
theorem parseDelegateResult_entry_per_match (body : String) :
    ∃ (re : Regexp) (ms : List Caps) (trains : List train),
      schedResultRegexp = some re ∧ Successive re body.data 0 ms ∧
      (∀ ms1, Successive re body.data 0 ms1 → ms1 = ms) ∧
      parseDelegateResult body = .ok (.elems trains) ∧
      trains.length = ms.length ∧
      (∀ i cap, ms.get? i = some cap →
        trains.get? i = some { Destination := submatch body.data cap 1,
                               Mission := submatch body.data cap 2,
                               Stop := submatch body.data cap 3 }) ∧
      trains = ms.map (trainOfMatch body.data) := by
  obtain ⟨ms, h1, h2⟩ := parseDelegateResult_successive body
  refine ⟨schedProgram, ms, ms.map (trainOfMatch body.data), schedResultRegexp_eq, h1,
    fun ms1 h => successive_unique _ _ _ _ _ h1 h, h2, by simp, ?_, rfl⟩
  intro i cap hi
  simp only [List.get?_eq_getElem?, List.getElem?_map] at hi ⊢
  rw [hi]
  rfl

theorem notIn_lt_test (x : Char) (h : (Cls.notIn ['<']).test x = true) : x ≠ '<' := by
  intro e
  subst e
  simp [Cls.test] at h

/-- C10: every entry returned by `parseDelegateResult` has a non-empty
destination, mission and stop; destination and stop hold no `<`, and the
mission holds only ASCII letters, digits and underscores. -/
theorem parseDelegateResult_entries_wellformed (body : String) :
    ∃ trains, parseDelegateResult body = .ok (.elems trains) ∧
      ∀ t ∈ trains,
        t.Destination ≠ "" ∧ t.Mission ≠ "" ∧ t.Stop ≠ "" ∧
        '<' ∉ t.Destination.data ∧ '<' ∉ t.Stop.data ∧
        ∀ c ∈ t.Mission.data, isWordChar c = true := by
  obtain ⟨ms, h1, h2⟩ := parseDelegateResult_successive body
  refine ⟨_, h2, ?_⟩
  intro t ht
  obtain ⟨cap, hcap, rfl⟩ := List.mem_map.mp ht
  obtain ⟨p0, t0, hat, hrun⟩ := successive_run_of_mem _ _ _ h1 (Nat.zero_le _) cap hcap
  obtain ⟨w1, w2, w3, e, ne1, hw1, ne2, hw2, ne3, hw3, g1, g2, g3, -⟩ :=
    run_schedProgram _ p0 t0 cap hrun hat
  have hne : ∀ w : List Char, w ≠ [] → String.mk w ≠ "" := by
    intro w hw e
    exact hw (congrArg String.data e)
  simp only [trainOfMatch, g1, g2, g3]
  refine ⟨hne _ ne1, hne _ ne2, hne _ ne3, ?_, ?_, ?_⟩
  · intro hm
    exact notIn_lt_test _ (hw1 _ hm) rfl
  · intro hm
    exact notIn_lt_test _ (hw3 _ hm) rfl
  · intro c hc
    exact hw2 c hc

/-! ## Response encoder and request orchestrator -/

theorem mkMarshalFunc_eq (pretty : Bool) (input : jsonResult) :
    mkMarshalFunc pretty input = .ok { doc := marshalResult input, indent := pretty } := by
  cases pretty <;> rfl

theorem worker_of_build_error (b : Backend) (w : ResponseWriter) (q : Values) (msg : String)
    (h : buildSchedQuery q = .error msg) :
    worker b w q =
      ({ writer := w, fetched := [] }, .error ("Failed to build delegate URL: " ++ msg)) := by
  simp [worker, buildDelegateURL, h, Outcome.bind]

theorem buildDelegateURL_of_ok (q : Values) (sq : schedQuery) (h : buildSchedQuery q = .ok sq) :
    buildDelegateURL q =
      .ok ("http://wap.ratp.fr/siv/schedule?service=next&reseau=" ++ sq.Mode ++
        "&lineid=" ++ sq.Line ++ "&directionsens=" ++ sq.Direction ++
        "&stationname=" ++ sq.Station ++ "\"") := by
  simp only [buildDelegateURL, h, Outcome.bind, executeTemplate_core]

theorem worker_of_fetch_error (b : Backend) (w : ResponseWriter) (q : Values)
    (url cause : String) (hurl : buildDelegateURL q = .ok url)
    (hf : b.fetch url = .error cause) :
    worker b w q =
      ({ writer := w, fetched := [url] }, .error ("Failed to query RATP service: " ++ cause)) := by
  simp [worker, hurl, hf]

theorem worker_of_fetch_ok (b : Backend) (w : ResponseWriter) (q : Values)
    (url body : String) (trains : Slice train) (hurl : buildDelegateURL q = .ok url)
    (hf : b.fetch url = .ok body) (hp : parseDelegateResult body = .ok trains) :
    worker b w q =
      ({ writer := ((w.setHeader "Content-Type" "application/json").setHeader
            "Access-Control-Allow-Origin" "*").write
            (.json { doc := marshalResult
                       { DelegateDuration := b.elapsed url, IncomingTrains := trains },
                     indent := decide (q.get "pretty" ≠ .nil) }),
         fetched := [url] }, .ok ()) := by
  simp [worker, hurl, hf, hp, mkMarshalFunc_eq]

/-- The three ways a request on a parsed query can go: a mandatory parameter
is absent, the fetch fails, or the fetch gives a body. -/
theorem worker_trichotomy (b : Backend) (q : Values) (hq : q.parsed = true) :
    (∃ p, ((p = "line" ∧ q.has "line" = false) ∨
          (p = "direction" ∧ q.has "line" = true ∧ q.has "direction" = false) ∨
          (p = "station" ∧ q.has "line" = true ∧ q.has "direction" = true ∧
            q.has "station" = false)) ∧
        (∀ url, buildDelegateURL q ≠ .ok url) ∧
        ∀ w, worker b w q = ({ writer := w, fetched := [] },
          .error ("Failed to build delegate URL: Missing mandatory parameter '" ++ p ++ "'"))) ∨
    (q.has "line" = true ∧ q.has "direction" = true ∧ q.has "station" = true ∧
      ∃ url cause, buildDelegateURL q = .ok url ∧ b.fetch url = .error cause ∧
        ∀ w, worker b w q = ({ writer := w, fetched := [url] },
          .error ("Failed to query RATP service: " ++ cause))) ∨
    (q.has "line" = true ∧ q.has "direction" = true ∧ q.has "station" = true ∧
      ∃ url body trains, buildDelegateURL q = .ok url ∧ b.fetch url = .ok body ∧
        parseDelegateResult body = .ok trains ∧
        ∀ w, worker b w q =
          ({ writer := ((w.setHeader "Content-Type" "application/json").setHeader
                "Access-Control-Allow-Origin" "*").write
                (.json { doc := marshalResult
                           { DelegateDuration := b.elapsed url, IncomingTrains := trains },
                         indent := decide (q.get "pretty" ≠ .nil) }),
             fetched := [url] }, .ok ())) := by
  have key : ∀ k, (q.has k = false ∧ q.get k = .nil) ∨
      (q.has k = true ∧ ∃ x xs, q.get k = .elems (x :: xs)) := by
    intro k
    cases h : q.has k with
    | false => exact Or.inl ⟨rfl, get_of_has_false q k h⟩
    | true => exact Or.inr ⟨rfl, get_of_has_true q hq k h⟩
  have hbuild : ∀ msg, buildSchedQuery q = .error msg → ∀ url, buildDelegateURL q ≠ .ok url := by
    intro msg h url
    simp [buildDelegateURL, h, Outcome.bind]
  rcases key "line" with ⟨hl, gl⟩ | ⟨hl, l, ls, gl⟩
  · have e := buildSchedQuery_of_nil_line q gl
    exact Or.inl ⟨"line", Or.inl ⟨rfl, hl⟩, hbuild _ e,
      fun w => worker_of_build_error b w q _ e⟩
  · rcases key "direction" with ⟨hd, gd⟩ | ⟨hd, d, ds, gd⟩
    · have e := buildSchedQuery_of_nil_direction q (by simp [gl]) gd
      exact Or.inl ⟨"direction", Or.inr (Or.inl ⟨rfl, hl, hd⟩), hbuild _ e,
        fun w => worker_of_build_error b w q _ e⟩
    · rcases key "station" with ⟨hs, gs⟩ | ⟨hs, s, ss, gs⟩
      · have e := buildSchedQuery_of_nil_station q (by simp [gl]) (by simp [gd]) gs
        exact Or.inl ⟨"station", Or.inr (Or.inr ⟨rfl, hl, hd, hs⟩), hbuild _ e,
          fun w => worker_of_build_error b w q _ e⟩
      · have e := buildSchedQuery_of_values q l d s ls ds ss gl gd gs
        have hurl := buildDelegateURL_of_ok q _ e
        refine Or.inr ?_
        cases hf : b.fetch _ with
        | error cause =>
          exact Or.inl ⟨hl, hd, hs, _, cause, hurl, hf,
            fun w => worker_of_fetch_error b w q _ cause hurl hf⟩
        | ok body =>
          obtain ⟨ms, -, hp⟩ := parseDelegateResult_successive body
          exact Or.inr ⟨hl, hd, hs, _, body, _, hurl, hf, hp,
            fun w => worker_of_fetch_ok b w q _ body _ hurl hf hp⟩

/-- C7: on a parsed query and with the fetch as a function from the URL to a
body or an error cause, `worker` returns an error exactly when a mandatory
parameter is absent or the fetch fails. The message is that of the first
failing stage followed by the cause; when a parameter is absent nothing is
fetched. Otherwise it returns no error and writes a JSON body. An error leaves
the response writer untouched, so that the handler answers either with status
500 and the message, or with status 200 and the JSON body. -/
theorem worker_fails_exactly (b : Backend) (w : ResponseWriter) (q : Values)
    (hq : q.parsed = true) :
    (q.has "line" = false →
      worker b w q = ({ writer := w, fetched := [] },
        .error "Failed to build delegate URL: Missing mandatory parameter 'line'")) ∧
    (q.has "line" = true → q.has "direction" = false →
      worker b w q = ({ writer := w, fetched := [] },
        .error "Failed to build delegate URL: Missing mandatory parameter 'direction'")) ∧
    (q.has "line" = true → q.has "direction" = true → q.has "station" = false →
      worker b w q = ({ writer := w, fetched := [] },
        .error "Failed to build delegate URL: Missing mandatory parameter 'station'")) ∧
    (∀ url cause, buildDelegateURL q = .ok url → b.fetch url = .error cause →
      worker b w q = ({ writer := w, fetched := [url] },
        .error ("Failed to query RATP service: " ++ cause))) ∧
    (∀ url body, buildDelegateURL q = .ok url → b.fetch url = .ok body →
      ∃ enc, worker b w q =
        ({ writer := ((w.setHeader "Content-Type" "application/json").setHeader
              "Access-Control-Allow-Origin" "*").write (.json enc),
           fetched := [url] }, .ok ())) ∧
    ((∃ msg, (worker b w q).2 = .error msg) ↔
      (q.has "line" = false ∨ q.has "direction" = false ∨ q.has "station" = false ∨
        ∃ url cause, buildDelegateURL q = .ok url ∧ b.fetch url = .error cause)) ∧
    ((worker b w q).2 = .ok () ∨ ∃ msg, (worker b w q).2 = .error msg) ∧
    (∀ msg, (worker b w q).2 = .error msg → (worker b w q).1.writer = w) ∧
    (∀ msg, (worker b ResponseWriter.fresh q).2 = .error msg →
      (errorHandler worker b q).writer.status = some 500 ∧
      (errorHandler worker b q).writer.body = [.text (msg ++ "\n")]) ∧
    ((worker b ResponseWriter.fresh q).2 = .ok () →
      (errorHandler worker b q).writer.status = some 200 ∧
      ∃ enc, (errorHandler worker b q).writer.body = [.json enc]) := by
  have tri := worker_trichotomy b q hq
  refine ⟨?_, ?_, ?_, ?_, ?_, ?_, ?_, ?_, ?_, ?_⟩
  · intro hl
    exact worker_of_build_error b w q _
      (buildSchedQuery_of_nil_line q (get_of_has_false q _ hl))
  · intro hl hd
    obtain ⟨x, xs, gl⟩ := get_of_has_true q hq _ hl
    exact worker_of_build_error b w q _
      (buildSchedQuery_of_nil_direction q (by simp [gl]) (get_of_has_false q _ hd))
  · intro hl hd hs
    obtain ⟨x, xs, gl⟩ := get_of_has_true q hq _ hl
    obtain ⟨y, ys, gd⟩ := get_of_has_true q hq _ hd
    exact worker_of_build_error b w q _
      (buildSchedQuery_of_nil_station q (by simp [gl]) (by simp [gd])
        (get_of_has_false q _ hs))
  · intro url cause hurl hf
    exact worker_of_fetch_error b w q url cause hurl hf
  · intro url body hurl hf
    obtain ⟨ms, -, hp⟩ := parseDelegateResult_successive body
    exact ⟨_, worker_of_fetch_ok b w q url body _ hurl hf hp⟩
  · rcases tri with ⟨p, hp, hno, hw⟩ | ⟨hl, hd, hs, url, cause, hurl, hf, hw⟩ |
      ⟨hl, hd, hs, url, body, trains, hurl, hf, hp, hw⟩
    · rw [hw w]
      constructor
      · intro _
        rcases hp with ⟨-, h⟩ | ⟨-, -, h⟩ | ⟨-, -, -, h⟩
        · exact Or.inl h
        · exact Or.inr (Or.inl h)
        · exact Or.inr (Or.inr (Or.inl h))
      · intro _
        exact ⟨_, rfl⟩
    · rw [hw w]
      constructor
      · intro _
        exact Or.inr (Or.inr (Or.inr ⟨url, cause, hurl, hf⟩))
      · intro _
        exact ⟨_, rfl⟩
    · rw [hw w]
      constructor
      · rintro ⟨msg, h⟩
        cases h
      · rintro (h | h | h | ⟨url1, cause, h1, h2⟩)
        · rw [hl] at h; cases h
        · rw [hd] at h; cases h
        · rw [hs] at h; cases h
        · rw [hurl] at h1
          cases h1
          rw [hf] at h2
          cases h2
  · rcases tri with ⟨p, -, -, hw⟩ | ⟨-, -, -, url, cause, -, -, hw⟩ |
      ⟨-, -, -, url, body, trains, -, -, -, hw⟩
    · rw [hw w]; exact Or.inr ⟨_, rfl⟩
    · rw [hw w]; exact Or.inr ⟨_, rfl⟩
    · rw [hw w]; exact Or.inl rfl
  · intro msg
    rcases tri with ⟨p, -, -, hw⟩ | ⟨-, -, -, url, cause, -, -, hw⟩ |
      ⟨-, -, -, url, body, trains, -, -, -, hw⟩
    · rw [hw w]; intro _; rfl
    · rw [hw w]; intro _; rfl
    · rw [hw w]; intro h; cases h
  · intro msg
    rcases tri with ⟨p, -, -, hw⟩ | ⟨-, -, -, url, cause, -, -, hw⟩ |
      ⟨-, -, -, url, body, trains, -, -, -, hw⟩
    · simp only [errorHandler, hw ResponseWriter.fresh]
      intro h
      cases h
      exact ⟨rfl, rfl⟩
    · simp only [errorHandler, hw ResponseWriter.fresh]
      intro h
      cases h
      exact ⟨rfl, rfl⟩
    · rw [hw ResponseWriter.fresh]; intro h; cases h
  · rcases tri with ⟨p, -, -, hw⟩ | ⟨-, -, -, url, cause, -, -, hw⟩ |
      ⟨-, -, -, url, body, trains, -, -, -, hw⟩
    · rw [hw ResponseWriter.fresh]; intro h; cases h
    · rw [hw ResponseWriter.fresh]; intro h; cases h
    · simp only [errorHandler, hw ResponseWriter.fresh]
      intro _
      exact ⟨rfl, _, rfl⟩

/-- Witness of C7: the query `line=A&direction=1&station=Nation` with a fetch
that fails with the cause `timeout`. -/
theorem worker_fails_exactly_witness :
    Values.parsed [("line", .elems ["A"]), ("direction", .elems ["1"]),
      ("station", .elems ["Nation"])] = true ∧
    worker { fetch := fun _ => .error "timeout", elapsed := fun _ => 0 } ResponseWriter.fresh
        [("line", .elems ["A"]), ("direction", .elems ["1"]), ("station", .elems ["Nation"])] =
      ({ writer := ResponseWriter.fresh,
         fetched := ["http://wap.ratp.fr/siv/schedule?service=next&reseau=rer&lineid=A&directionsens=1&stationname=Nation\""] },
        .error "Failed to query RATP service: timeout") :=
  ⟨by decide,
    (worker_fails_exactly { fetch := fun _ => .error "timeout", elapsed := fun _ => 0 }
      ResponseWriter.fresh
      [("line", .elems ["A"]), ("direction", .elems ["1"]), ("station", .elems ["Nation"])]
      (by decide)).2.2.2.1 _ "timeout" (by decide) rfl⟩

/-- C6: when the pattern has no match in the body, extraction succeeds with the
empty non-nil sequence, and the JSON document that `worker` writes holds the
empty array, not `null`, under `incoming_trains`. -/
theorem no_match_gives_empty_array (b : Backend) (w : ResponseWriter) (q : Values)
    (url body : String) (re : Regexp) (hre : schedResultRegexp = some re)
    (hno : search re 0 body.data = none) (hurl : buildDelegateURL q = .ok url)
    (hf : b.fetch url = .ok body) :
    parseDelegateResult body = .ok (.elems []) ∧
    ∃ enc, worker b w q =
        ({ writer := ((w.setHeader "Content-Type" "application/json").setHeader
              "Access-Control-Allow-Origin" "*").write (.json enc),
           fetched := [url] }, .ok ()) ∧
      enc.doc.field "incoming_trains" = some (.array []) ∧
      enc.doc.field "incoming_trains" ≠ some .null := by
  rw [schedResultRegexp_eq] at hre
  cases hre
  obtain ⟨ms, h1, h2⟩ := parseDelegateResult_successive body
  have h0 : Successive schedProgram body.data 0 [] := Successive.done 0 hno
  have e := successive_unique _ _ _ _ _ h1 h0
  subst e
  refine ⟨h2, _, worker_of_fetch_ok b w q url body _ hurl hf h2, rfl, ?_⟩
  intro h
  cases h

/-- Witness of C6: the query `line=A&direction=1&station=Nation` and an
upstream page without any arrival block. -/
theorem no_match_gives_empty_array_witness :
    parseDelegateResult "<html><body>Service interrompu</body></html>" = .ok (.elems []) :=
  (no_match_gives_empty_array
    { fetch := fun _ => .ok "<html><body>Service interrompu</body></html>",
      elapsed := fun _ => 0 }
    ResponseWriter.fresh
    [("line", .elems ["A"]), ("direction", .elems ["1"]), ("station", .elems ["Nation"])]
    "http://wap.ratp.fr/siv/schedule?service=next&reseau=rer&lineid=A&directionsens=1&stationname=Nation\""
    "<html><body>Service interrompu</body></html>" schedProgram schedResultRegexp_eq
    (by decide) (by decide) rfl).1

/-- C8: the end-to-end example. For `line=A&direction=1&station=Nation` and the
upstream body of the example, extraction gives the single entry
(La Défense, RERA, 2 mn), and the response is a success, of status 200, whose
`incoming_trains` holds exactly this entry. -/
theorem end_to_end_example (elapsed : String → Nat) :
    parseDelegateResult
        "...&gt;&nbsp;La Défense</div>...>RERA</a>...<div class=\"schmsg1\"><b>2 mn</b>" =
      .ok (.elems [{ Destination := "La Défense", Mission := "RERA", Stop := "2 mn" }]) ∧
    errorHandler worker
        { fetch := fun _ =>
            .ok "...&gt;&nbsp;La Défense</div>...>RERA</a>...<div class=\"schmsg1\"><b>2 mn</b>",
          elapsed := elapsed }
        [("line", .elems ["A"]), ("direction", .elems ["1"]), ("station", .elems ["Nation"])] =
      { writer :=
          { header := [("Content-Type", "application/json"),
              ("Access-Control-Allow-Origin", "*")],
            status := some 200,
            body := [.json
              { doc := .object [
                  ("duration_s", .number (elapsed
                    "http://wap.ratp.fr/siv/schedule?service=next&reseau=rer&lineid=A&directionsens=1&stationname=Nation\"")),
                  ("incoming_trains", .array [.object [("destination", .str "La Défense"),
                    ("mission", .str "RERA"), ("stop", .str "2 mn")]])],
                indent := false }] },
        fetched := ["http://wap.ratp.fr/siv/schedule?service=next&reseau=rer&lineid=A&directionsens=1&stationname=Nation\""] } := by
  have hp : parseDelegateResult
      "...&gt;&nbsp;La Défense</div>...>RERA</a>...<div class=\"schmsg1\"><b>2 mn</b>" =
      .ok (.elems [{ Destination := "La Défense", Mission := "RERA", Stop := "2 mn" }]) := by
    decide
  refine ⟨hp, ?_⟩
  have hurl : buildDelegateURL
      [("line", .elems ["A"]), ("direction", .elems ["1"]), ("station", .elems ["Nation"])] =
      .ok "http://wap.ratp.fr/siv/schedule?service=next&reseau=rer&lineid=A&directionsens=1&stationname=Nation\"" := by
    decide
  simp only [errorHandler]
  rw [worker_of_fetch_ok _ _ _ _ _ _ hurl rfl hp]
  rfl

/-- C9: two complete arrival blocks on one line give a single entry, with the
destination of the first block and the mission and stop of the last one, since
both `.*` run to the last mission link and the last `schmsg` div of the line;
the same blocks on two lines give one entry each. -/
theorem greedy_merges_blocks_on_a_line :
    parseDelegateResult
        ("&gt;&nbsp;Cergy</div><a href=\"m\">UPAL</a><div class=\"schmsg1\"><b>2 mn</b></div>" ++
          "&gt;&nbsp;Poissy</div><a href=\"m\">TEDI</a><div class=\"schmsg2\"><b>9 mn</b></div>") =
      .ok (.elems [{ Destination := "Cergy", Mission := "TEDI", Stop := "9 mn" }]) ∧
    parseDelegateResult
        ("&gt;&nbsp;Cergy</div><a href=\"m\">UPAL</a><div class=\"schmsg1\"><b>2 mn</b></div>\n" ++
          "&gt;&nbsp;Poissy</div><a href=\"m\">TEDI</a><div class=\"schmsg2\"><b>9 mn</b></div>") =
      .ok (.elems [{ Destination := "Cergy", Mission := "UPAL", Stop := "2 mn" },
        { Destination := "Poissy", Mission := "TEDI", Stop := "9 mn" }]) := by
  constructor <;> decide

end Gwyf
